import Mathlib

/-!
Verification of the message-relay bot (`src/app/handlers_analyzer.py`,
`src/generate.py`) against its specification.

Strings are modelled as `List Char` (`Str`), mirroring Python's sequence of
code points; `len` is `List.length`.  Timestamps are natural numbers
(`time.time()` seconds).  External collaborators (the chat transport, the
speech-to-text engine, `pydub.silence.split_on_silence`, the LLM endpoint,
`hashlib.md5`) appear as parameters of the embedded functions.  Functions
that scan a string while skipping more than one character per step are
written with an explicit fuel argument (initialised to the string length,
which always suffices) so that every definition is structurally recursive
and kernel-evaluable.
-/

set_option maxRecDepth 10000

abbrev Str := List Char

/-- Python `str.strip()` whitespace (the ASCII whitespace characters). -/
def isPySpace (c : Char) : Bool :=
  c = ' ' || c = '\t' || c = '\n' || c = '\r' || c = '\x0b' || c = '\x0c'

/-- Membership in the regex character class `[Ѐ-ӿ]` (Cyrillic block)
used by the sanitizer in `parse_analysis_response` / `clean_ai_response`. -/
def isCyr (c : Char) : Bool :=
  0x400 ≤ c.toNat && c.toNat ≤ 0x4FF

/-- The punctuation kept by the sanitizer regex
`[^Ѐ-ӿ\s\.\,\!\?\-\:\(\)\d]`. -/
def isKeptPunct (c : Char) : Bool :=
  c = '.' || c = ',' || c = '!' || c = '?' || c = '-' || c = ':' || c = '(' || c = ')'

/-- A character kept by the sanitizer regex of `parse_analysis_response`
(line 768): Cyrillic block, whitespace, the punctuation set, or a digit. -/
def codeAllowed (c : Char) : Bool :=
  isCyr c || isPySpace c || isKeptPunct c || c.isDigit

/-- Python `str.lstrip()`. -/
def lstrip (s : Str) : Str := s.dropWhile isPySpace

/-- Python `str.rstrip()`. -/
def rstrip (s : Str) : Str := (s.reverse.dropWhile isPySpace).reverse

/-- Python `str.strip()`. -/
def pyStrip (s : Str) : Str := rstrip (lstrip s)

/-- Python `str.split(sep)` for a single-character separator. -/
def splitOnChar (sep : Char) : Str → List Str
  | [] => [[]]
  | c :: cs =>
    let r := splitOnChar sep cs
    if c = sep then [] :: r
    else
      match r with
      | [] => [[c]]
      | h :: t => (c :: h) :: t

/-- Fueled worker for `removeAll`: Python `s.replace(t, '')`, replacing
leftmost non-overlapping occurrences of `t` by the empty string. -/
def remAllGo (t : Str) : Nat → Str → Str
  | 0, s => s
  | _ + 1, [] => []
  | f + 1, c :: cs =>
    if t.isPrefixOf (c :: cs) then remAllGo t f (List.drop (t.length - 1) cs)
    else c :: remAllGo t f cs

/-- Python `s.replace(t, '')` (the source only calls `replace` with the two
non-empty label strings, so the degenerate `t = []` case is irrelevant and
mapped to the identity). -/
def removeAll (s t : Str) : Str :=
  if t = [] then s else remAllGo t s.length s

/-- Python `t in s` (substring containment). -/
def occursSub : Str → Str → Bool
  | [], t => t.isEmpty
  | c :: cs, t => t.isPrefixOf (c :: cs) || occursSub cs t

/-- Fueled worker for `pySplitSub`. -/
def pySplitGo (t : Str) : Nat → Str → List Str
  | 0, s => [s]
  | _ + 1, [] => [[]]
  | f + 1, c :: cs =>
    if t.isPrefixOf (c :: cs) then [] :: pySplitGo t f (List.drop (t.length - 1) cs)
    else
      match pySplitGo t f cs with
      | [] => [[c]]
      | h :: tl => (c :: h) :: tl

/-- Python `s.split(t)` for a non-empty separator string `t`. -/
def pySplitSub (s t : Str) : List Str :=
  if t = [] then [s] else pySplitGo t s.length s

/-- First half of the `re.sub(r'\s+', ' ', x)` model: send every whitespace
character to a plain space. -/
def mapWs (s : Str) : Str := s.map (fun c => if isPySpace c then ' ' else c)

/-- Second half of the `re.sub(r'\s+', ' ', x)` model: fuse adjacent spaces. -/
def squeeze : Str → Str
  | [] => []
  | [a] => [a]
  | a :: b :: t => if a = ' ' && b = ' ' then squeeze (b :: t) else a :: squeeze (b :: t)

/-- `re.sub(r'\s+', ' ', x)`: each maximal whitespace run becomes one space. -/
def collapseWs (s : Str) : Str := squeeze (mapWs s)

/-- Worker for `pysplitWs` carrying the (reversed) current word. -/
def wordsGo (acc : Str) : Str → List Str
  | [] => if acc = [] then [] else [acc.reverse]
  | c :: cs =>
    if isPySpace c then
      if acc = [] then wordsGo [] cs else acc.reverse :: wordsGo [] cs
    else wordsGo (c :: acc) cs

/-- Python `str.split()` with no argument: split on whitespace runs,
dropping empty pieces. -/
def pysplitWs (s : Str) : List Str := wordsGo [] s

/-- Python `'sep'.join(parts)`. -/
def joinWith (sep : Str) : List Str → Str
  | [] => []
  | [a] => a
  | a :: b :: t => a ++ sep ++ joinWith sep (b :: t)

/-- Python dict assignment `d[k] = v` on an insertion-ordered association
list: update in place if the key exists, else append at the end. -/
def pyDictInsert {α : Type} : List (Str × α) → Str → α → List (Str × α)
  | [], k, v => [(k, v)]
  | (k', v') :: rest, k, v =>
    if k' = k then (k', v) :: rest else (k', v') :: pyDictInsert rest k v

/-- Python dict lookup `d.get(k)` on the association-list model. -/
def lookupK {α : Type} : List (Str × α) → Str → Option α
  | [], _ => none
  | (k', v') :: rest, k => if k' = k then some v' else lookupK rest k

/-- Pointwise update of a map modelled as a function (`d[k] = v` for the
per-user `defaultdict`s). -/
def updFn {α : Type} (m : Nat → α) (k : Nat) (v : α) : Nat → α :=
  fun k' => if k' = k then v else m k'

/-! ## Rate limiter (`handlers_analyzer.py` lines 794-813) -/

/-- The pruning comprehension of `can_make_ai_request` (line 798): keep the
request timestamps from the last 120 seconds. -/
def pruneRequests (now : Nat) (reqs : List Nat) : List Nat :=
  reqs.filter (fun t => now - t < 120)

/-- `can_make_ai_request(user_id)` (lines 794-805).  Returns the gate verdict
together with the pruned request list, because the Python function also
writes the pruned list back into `user_requests[user_id]`.  `lastErr = none`
models a user absent from `last_ai_error`; `.getD 0` is Python's
`last_ai_error.get(user_id, 0)`. -/
def can_make_ai_request (now : Nat) (reqs : List Nat) (lastErr : Option Nat) :
    Bool × List Nat :=
  let pruned := pruneRequests now reqs
  if 3 ≤ pruned.length then (false, pruned)
  else if now - lastErr.getD 0 < 300 then (false, pruned)
  else (true, pruned)

/-- `add_request(user_id)` (lines 807-809): append the current timestamp. -/
def add_request (now : Nat) (reqs : List Nat) : List Nat := reqs ++ [now]

/-- `mark_ai_error(user_id)` (lines 811-813): record the failure time. -/
def mark_ai_error (now : Nat) (_lastErr : Option Nat) : Option Nat := some now

/-- The spec's reading of "no failure was recorded within the last 300
seconds": either no failure was ever recorded, or the last one is at least
300 seconds old. -/
def noRecentFailure (now : Nat) (lastErr : Option Nat) : Prop :=
  match lastErr with
  | none => True
  | some e => 300 ≤ now - e

instance (now : Nat) (lastErr : Option Nat) : Decidable (noRecentFailure now lastErr) := by
  unfold noRecentFailure
  cases lastErr <;> infer_instance

/-! ## Analysis response parser (`handlers_analyzer.py` lines 714-792) -/

/-- The Russian "main idea" label literal. -/
def ideaLabel : Str := "ОСНОВНАЯ МЫСЛЬ:".data

/-- The Russian "answer" label literal. -/
def ansLabel : Str := "ОТВЕТ:".data

structure AnalysisResult where
  main_idea : Str
  answer : Str
deriving DecidableEq, Repr

/-- The fixed default pair returned for `None` / empty input (lines 716-720). -/
def defaultResult : AnalysisResult :=
  ⟨"Не удалось проанализировать сообщение".data,
   "Попробуйте отправить сообщение еще раз".data⟩

/-- Default substituted for an empty `main_idea` (line 782). -/
def mainDefault : Str := "Основная мысль не выделена".data

/-- Default substituted for an empty `answer` (line 784). -/
def ansDefault : Str := "Не удалось сгенерировать ответ".data

/-- Canned answer of case 3 when sentences remain for the idea only (line 762). -/
def cannedStory : Str := "Интересная история! Расскажите больше подробностей.".data

/-- Canned answer of the last-resort branch of case 3 (line 765). -/
def cannedDiscuss : Str := "Понимаю вашу ситуацию. Давайте обсудим это подробнее.".data

/-- One step of the case-1 line scan (lines 730-735): strip the line, then
let a matching label overwrite the corresponding field. -/
def scanStep (p : Str × Str) (line : Str) : Str × Str :=
  let l := pyStrip line
  if ideaLabel.isPrefixOf l then (pyStrip (removeAll l ideaLabel), p.2)
  else if ansLabel.isPrefixOf l then (p.1, pyStrip (removeAll l ansLabel))
  else p

/-- Case 1 of `parse_analysis_response` (lines 726-735): scan the lines for
the literal labels; each later match overwrites the earlier value. -/
def lineScan (lines : List Str) : Str × Str := lines.foldl scanStep ([], [])

/-- Case 2 (lines 738-746): if no answer was found but the answer label
occurs, split the whole response on it. -/
def case2 (s : Str) (p : Str × Str) : Str × Str :=
  if p.2 = [] && occursSub s ansLabel then
    let parts := pySplitSub s ansLabel
    if parts.length = 2 then
      let mainPart := parts.getD 0 []
      let mi :=
        if occursSub mainPart ideaLabel then
          pyStrip ((pySplitSub mainPart ideaLabel).getD 1 [])
        else pyStrip mainPart
      (mi, pyStrip (parts.getD 1 []))
    else p
  else p

/-- Case 3 (lines 749-765): split on a double newline, else on sentences. -/
def case3 (s : Str) (p : Str × Str) : Str × Str :=
  if p.1 = [] && p.2 = [] then
    let parts := pySplitSub s ('\n' :: ['\n'])
    if 2 ≤ parts.length then (parts.getD 0 [], parts.getD 1 [])
    else
      let sentences := ((splitOnChar '.' s).map pyStrip).filter (fun x => x ≠ [])
      if 2 ≤ sentences.length then
        let mi := joinWith ('.' :: [' ']) (sentences.take 2) ++ ['.']
        let remaining := sentences.drop 2
        let ans :=
          if remaining ≠ [] then joinWith ('.' :: [' ']) (remaining.take 3) ++ ['.']
          else cannedStory
        (mi, ans)
      else (s, cannedDiscuss)
  else p

/-- The final two post-processing stages (lines 781-790): substitute the
default when the field is empty, then truncate to 500 characters with an
ellipsis. -/
def finalizeField (dflt e0 : Str) : Str :=
  let e := if e0 = [] then dflt else e0
  if 500 < e.length then e.take 497 ++ "...".data else e

/-- Post-processing of one extracted field (lines 767-790): sanitize against
the allow-list, collapse whitespace, strip residual labels, substitute the
default when empty, and truncate to 500 characters with an ellipsis. -/
def postProcess (dflt : Str) (x : Str) : Str :=
  let a := pyStrip (collapseWs (x.filter codeAllowed))
  let b := pyStrip (removeAll a ideaLabel)
  let c := pyStrip (removeAll b ansLabel)
  finalizeField dflt c

/-- `parse_analysis_response(response)` (lines 714-792).  `none` models the
Python `None` argument; `if not response` is true exactly for `None` and
the empty string. -/
def parse_analysis_response (resp : Option Str) : AnalysisResult :=
  match resp with
  | none => defaultResult
  | some s0 =>
    if s0 = [] then defaultResult
    else
      let s := pyStrip s0
      let p := case3 s (case2 s (lineScan (splitOnChar '\n' s)))
      ⟨postProcess mainDefault p.1, postProcess ansDefault p.2⟩

/-! ## Text segmenter `split_long_text` (`handlers_analyzer.py` lines 617-668) -/

/-- A sentence-delimiter character of the regex `([.!?]+[\s]*)`. -/
def isSentC (c : Char) : Bool := c = '.' || c = '!' || c = '?'

/-- Fueled worker for `reSplitSent`. -/
def splitSentGo : Nat → Str → List Str
  | 0, s => [s]
  | f + 1, s =>
    let pre := s.takeWhile (fun c => !isSentC c)
    let rest := s.dropWhile (fun c => !isSentC c)
    match rest with
    | [] => [pre]
    | _ :: _ =>
      let dl := rest.takeWhile isSentC
      let rest2 := rest.dropWhile isSentC
      let ws := rest2.takeWhile isPySpace
      let rem := rest2.dropWhile isPySpace
      pre :: (dl ++ ws) :: splitSentGo f rem

/-- `re.split(r'([.!?]+[\s]*)', text)` (line 626): alternating list of
text pieces and captured delimiter runs, starting and ending with a
(possibly empty) text piece. -/
def reSplitSent (s : Str) : List Str := splitSentGo s.length s

/-- The recombination loop of lines 629-634: reattach each captured
delimiter to its preceding piece. -/
def pairUp : List Str → List Str
  | [] => []
  | [a] => [a]
  | a :: b :: r => (a ++ b) :: pairUp r

/-- One step of the word-level fallback loop (lines 643-652), on the state
(chunks so far, current word-accumulated chunk). -/
def wordStep (maxL : Nat) (st : List Str × Str) (w : Str) : List Str × Str :=
  if st.2.length + w.length + 1 ≤ maxL then
    (st.1, if st.2 = [] then w else st.2 ++ ' ' :: w)
  else
    ((if st.2 = [] then st.1 else st.1 ++ [st.2]), w)

/-- One step of the sentence loop of `split_long_text` (lines 636-663), on
the state (chunks so far, current chunk).  An oversized sentence goes
through word-level packing, leaving the current chunk untouched; otherwise
the sentence is accumulated greedily. -/
def sentStep (maxL : Nat) (st : List Str × Str) (s : Str) : List Str × Str :=
  if maxL < s.length then
    let r := (pysplitWs s).foldl (wordStep maxL) (st.1, [])
    ((if r.2 = [] then r.1 else r.1 ++ [r.2]), st.2)
  else
    if st.2.length + s.length ≤ maxL then (st.1, st.2 ++ s)
    else ((if st.2 = [] then st.1 else st.1 ++ [pyStrip st.2]), s)

/-- The final flush of `split_long_text` (lines 665-666): append the
stripped pending chunk if non-empty. -/
def flushCur (r : List Str × Str) : List Str :=
  if r.2 = [] then r.1 else r.1 ++ [pyStrip r.2]

/-- `split_long_text(text, max_length)` (lines 617-668). -/
def split_long_text (text : Str) (maxL : Nat) : List Str :=
  if text.length ≤ maxL then [text]
  else flushCur ((pairUp (reSplitSent text)).foldl (sentStep maxL) ([], []))

/-- The whitespace-insensitive content of a string (used to state the
reassembly property "concatenation reproduces T ignoring separators"). -/
def contentOf (s : Str) : Str := s.filter (fun c => !isPySpace c)

/-! ## Audio segmenter `split_audio_on_silence` (lines 815-851)

An audio buffer is a list of frames (one per millisecond); `len(audio)` is
the duration in ms and `audio[i:i+n]` is `(audio.drop i).take n`.  The
external `pydub.silence.split_on_silence` result is a parameter. -/

/-- Fueled worker slicing a buffer into consecutive `cl`-ms windows
(the loop `for i in range(0, duration, chunk_length)`, lines 840-843,
before the minimum-length filter). -/
def chunksGo {α : Type} (cl : Nat) : Nat → List α → List (List α)
  | 0, _ => []
  | f + 1, l => if l.isEmpty then [] else l.take cl :: chunksGo cl f (l.drop cl)

/-- Fixed-window slicing with the sub-1-second filter (lines 839-843):
keep only slices strictly longer than 1000 ms. -/
def fixedSlices {α : Type} (cl : Nat) (audio : List α) : List (List α) :=
  (chunksGo cl audio.length audio).filter (fun c => 1000 < c.length)

/-- `split_audio_on_silence(audio_path, ...)` (lines 815-851), with the
result of the external silence detector passed in as `silenceChunks` and
the error path (line 848) out of scope.  `cl` is `chunk_length`
(default 30000). -/
def split_audio_on_silence {α : Type} (audio : List α)
    (silenceChunks : List (List α)) (cl : Nat) : List (List α) :=
  if audio.length ≤ 45000 then [audio]
  else if silenceChunks.isEmpty || 20 < silenceChunks.length || silenceChunks.length < 2 then
    fixedSlices cl audio
  else silenceChunks

/-! ## AI completion client `ai_generate` (`generate.py` lines 27-77) -/

/-- A character matched by the regex `[а-яА-Я]` of `generate.py` line 52. -/
def isRuLetter (c : Char) : Bool :=
  ('а' ≤ c && c ≤ 'я') || ('А' ≤ c && c ≤ 'Я')

/-- The distinguished "no response" failure message raised after the retry
budget is exhausted (line 77; the Python message interpolates the retry
count, which callers do not match on). -/
def msgNoResponse : Str := "Не удалось получить ответ".data

/-- The acceptance test of lines 50-55: a non-empty response, longer than
10 characters after stripping, containing at least one `[а-яА-Я]` letter. -/
def acceptableResponse (r : Str) : Bool :=
  !r.isEmpty && 10 < (pyStrip r).length && r.any isRuLetter

/-- Worker for `ai_generate`: attempt `i`, `fuel` attempts remaining.
`responses i = none` models the endpoint raising on attempt `i`; a rejected
response (empty, short, or without `[а-яА-Я]`) also moves on to the next
attempt, mirroring `raise`/`continue` in lines 50-57. -/
def aiGenGo (responses : Nat → Option Str) : Nat → Nat → Except Str Str
  | _, 0 => Except.error msgNoResponse
  | i, f + 1 =>
    match responses i with
    | none => aiGenGo responses (i + 1) f
    | some r =>
      if !r.isEmpty && 10 < (pyStrip r).length then
        if r.any isRuLetter then Except.ok r else aiGenGo responses (i + 1) f
      else aiGenGo responses (i + 1) f

/-- `ai_generate(text, max_retries=3)` (lines 27-77), with the per-attempt
endpoint outcome supplied by `responses` (the prompt, model rotation and
backoff sleeps do not affect which response is returned). -/
def ai_generate (responses : Nat → Option Str) (max_retries : Nat) : Except Str Str :=
  aiGenGo responses 0 max_retries

/-! ## Message handlers (`handlers_analyzer.py` lines 908-1144)

The handlers are embedded as state transformers.  External effects are
parameters: `md5hex` is the fingerprint function (`hashlib.md5(...).hexdigest()`),
`recognizedText = none` collapses every pre-analysis failure exit of the
voice handler (download, ffmpeg, too-short transcription), `aiResponse`
is the outcome of the `analyze_long_text` / `ai_analyze_message` call
(`none` = the call raised) and `backupResponse` the `simple_text_analysis`
result.  The returned `Nat` counts completion-client invocations. -/

structure BotState where
  user_requests : Nat → List Nat
  last_ai_error : Nat → Option Nat
  text_cache : List (Str × AnalysisResult)

/-- Python `text.startswith('/')` (line 1076). -/
def startsSlash : Str → Bool
  | c :: _ => c = '/'
  | [] => false

/-- The cache insertion of the voice handler (lines 1011-1016): insert,
then if the size exceeds 50 evict the single first-inserted entry
(`next(iter(text_cache))`). -/
def cache_evict_put (cache : List (Str × AnalysisResult)) (k : Str)
    (v : AnalysisResult) : List (Str × AnalysisResult) :=
  let c := pyDictInsert cache k v
  if 50 < c.length then c.drop 1 else c

/-- `handle_text_message` (lines 1069-1144), restricted to the state it
mutates and the calls it makes.  Note the cache insertion at line 1113 has
no eviction step. -/
def handle_text_message (md5hex : Str → Str) (now uid : Nat) (text : Str)
    (aiResponse : Option Str) (backupResponse : Str) (st : BotState) :
    BotState × Nat :=
  if startsSlash text then (st, 0)
  else
    let g := can_make_ai_request now (st.user_requests uid) (st.last_ai_error uid)
    let st1 := { st with user_requests := updFn st.user_requests uid g.2 }
    if g.1 = false then (st1, 0)
    else
      let st2 := { st1 with user_requests := updFn st1.user_requests uid (add_request now g.2) }
      let h := md5hex text
      match lookupK st2.text_cache h with
      | some _ => (st2, 0)
      | none =>
        match aiResponse with
        | some resp =>
          let analysis := parse_analysis_response (some resp)
          ({ st2 with text_cache := pyDictInsert st2.text_cache h analysis }, 1)
        | none =>
          let _analysis := parse_analysis_response (some backupResponse)
          ({ st2 with last_ai_error := updFn st2.last_ai_error uid (some now) }, 1)

/-- `handle_voice_message` (lines 908-1067), restricted likewise.
`recognizedText = none` models every failure exit between `add_request`
(line 917) and the cache check (line 991); the cache insertion of this
handler (lines 1011-1016) evicts the oldest entry past 50. -/
def handle_voice_message (md5hex : Str → Str) (now uid : Nat)
    (recognizedText : Option Str) (aiResponse : Option Str)
    (backupResponse : Str) (st : BotState) : BotState × Nat :=
  let g := can_make_ai_request now (st.user_requests uid) (st.last_ai_error uid)
  let st1 := { st with user_requests := updFn st.user_requests uid g.2 }
  if g.1 = false then (st1, 0)
  else
    let st2 := { st1 with user_requests := updFn st1.user_requests uid (add_request now g.2) }
    match recognizedText with
    | none => (st2, 0)
    | some text =>
      let h := md5hex text
      match lookupK st2.text_cache h with
      | some _ => (st2, 0)
      | none =>
        match aiResponse with
        | some resp =>
          let analysis := parse_analysis_response (some resp)
          ({ st2 with text_cache := cache_evict_put st2.text_cache h analysis }, 1)
        | none =>
          let _analysis := parse_analysis_response (some backupResponse)
          ({ st2 with last_ai_error := updFn st2.last_ai_error uid (some now) }, 1)

/-! ## Claim-side auxiliary definitions -/

/-- The allowed alphabet named by the spec for the exact-parse property:
Cyrillic letters, digits, spaces, and the punctuation set `. , ! ? - : ( )`. -/
def claimAllowed (c : Char) : Bool :=
  isCyr c || c.isDigit || c = ' ' || isKeptPunct c

/-- The allowed alphabet minus `':'` (the colon can recreate a label
substring, which the parser strips again). -/
def claimAllowedNC (c : Char) : Bool := claimAllowed c && !(c = ':')

/-- The string is non-empty and does not start with whitespace. -/
def headNonspace : Str → Bool
  | [] => false
  | c :: _ => !isPySpace c

/-- No two adjacent whitespace characters. -/
def noDoubleSpace : Str → Bool
  | [] => true
  | [_] => true
  | a :: b :: t => !(isPySpace a && isPySpace b) && noDoubleSpace (b :: t)

/-- A field value in whitespace-normal form over the restricted alphabet:
what the sanitize / collapse / label-strip pipeline leaves unchanged. -/
def normField (x : Str) : Bool :=
  x.all claimAllowedNC && headNonspace x && headNonspace x.reverse &&
    noDoubleSpace x && decide (x.length ≤ 500)

/-- The two-line labeled response of the exact-parse property:
`"ОСНОВНАЯ МЫСЛЬ: X\nОТВЕТ: Y"`. -/
def labeledInput (x y : Str) : Str :=
  ideaLabel ++ ' ' :: x ++ '\n' :: (ansLabel ++ ' ' :: y)

/-- The empty bot state: no requests, no failures, empty cache. -/
def initState : BotState := ⟨fun _ => [], fun _ => none, []⟩

/-- 51 pairwise distinct one-character fingerprints (`'а'`, `'б'`, ...). -/
def keys51 : List Str := (List.range 51).map (fun i => [Char.ofNat (1072 + i)])

/-- 51 text messages from 51 distinct users, each passing the rate-limit
gate, processed by the text-message handler with the identity fingerprint
function and a fresh AI response each time. -/
def c1TextRun : BotState :=
  (List.range 51).foldl
    (fun st i =>
      (handle_text_message id 300 i [Char.ofNat (1072 + i)]
        (some "ОТВЕТ: да".data) [] st).1)
    initState

/-- 51 distinct fingerprints inserted through the voice handler's cache
insertion (insert-then-evict, lines 1011-1016), starting from empty. -/
def c1VoiceCache : List (Str × AnalysisResult) :=
  keys51.foldl (fun c k => cache_evict_put c k defaultResult) []

/-- A 12-character response consisting only of the Cyrillic letter `ё`,
which lies in the Cyrillic block but outside the `[а-яА-Я]` class. -/
def yoStr : Str := "ёёёёёёёёёёёё".data

/-! ## General lemmas -/

theorem pyDictInsert_length_le {α : Type} (c : List (Str × α)) (k : Str) (v : α) :
    (pyDictInsert c k v).length ≤ c.length + 1 := by
  induction c with
  | nil => simp [pyDictInsert]
  | cons hd tl ih =>
    obtain ⟨k', v'⟩ := hd
    by_cases h : k' = k <;> simp [pyDictInsert, h] <;> omega

/-! ## C6: the rate-limiter gate -/

/-- C6 (corrected): with a clock value of at least 300 — the epoch clock
always is — `can_make_ai_request` returns true iff fewer than 3 timestamps
survive the 120-second pruning and no failure was recorded in the last
300 seconds; moreover an entry aged at least 120 seconds is pruned, three
requests within the window force a false verdict, and a recorded failure
forces a false verdict for the following 300 seconds even with an empty
request log.  (For a user with no recorded failure the code compares
against the default timestamp 0, so during the first 300 clock seconds the
gate is also closed; hence the clock hypothesis.) -/
theorem can_make_ai_request_iff_amended :
    ∀ (now : Nat) (reqs : List Nat) (lastErr : Option Nat),
      (300 ≤ now →
        ((can_make_ai_request now reqs lastErr).1 = true ↔
          (pruneRequests now reqs).length < 3 ∧ noRecentFailure now lastErr))
      ∧ (∀ t ∈ reqs, 120 ≤ now - t → t ∉ pruneRequests now reqs)
      ∧ (∀ t1 t2 t3, now - t1 < 120 → now - t2 < 120 → now - t3 < 120 →
          (can_make_ai_request now
            (add_request t3 (add_request t2 (add_request t1 []))) lastErr).1 = false)
      ∧ (∀ tf, now - tf < 300 →
          (can_make_ai_request now reqs (mark_ai_error tf lastErr)).1 = false) := by
  intro now reqs lastErr
  refine ⟨?_, ?_, ?_, ?_⟩
  · intro h300
    unfold can_make_ai_request
    by_cases h3 : 3 ≤ (pruneRequests now reqs).length
    · simp only [h3, if_true]
      constructor
      · intro h; exact absurd h (by simp)
      · intro h; omega
    · simp only [h3, if_false]
      by_cases herr : now - lastErr.getD 0 < 300
      · simp only [herr, if_true]
        constructor
        · intro h; exact absurd h (by simp)
        · rintro ⟨-, hn⟩
          cases lastErr with
          | none => simp [Option.getD] at herr; omega
          | some e =>
            simp only [noRecentFailure] at hn
            simp [Option.getD] at herr; omega
      · simp only [herr, if_false]
        constructor
        · intro _
          refine ⟨by omega, ?_⟩
          cases lastErr with
          | none => trivial
          | some e => simp only [noRecentFailure]; simp [Option.getD] at herr; omega
        · intro _; trivial
  · intro t _ht hage hmem
    rw [pruneRequests, List.mem_filter] at hmem
    have := hmem.2
    simp at this
    omega
  · intro t1 t2 t3 h1 h2 h3
    unfold can_make_ai_request
    have : 3 ≤ (pruneRequests now
        (add_request t3 (add_request t2 (add_request t1 [])))).length := by
      simp [pruneRequests, add_request, h1, h2, h3]
    simp [this]
  · intro tf htf
    unfold can_make_ai_request
    by_cases h3 : 3 ≤ (pruneRequests now reqs).length
    · simp [h3]
    · have : now - (mark_ai_error tf lastErr).getD 0 < 300 := by
        simp [mark_ai_error, Option.getD]; omega
      simp [h3, this]

/-- Witness for C6 at concrete inputs. -/
theorem can_make_ai_request_iff_amended_witness :
    ((can_make_ai_request 300 [] none).1 = true ↔
      (pruneRequests 300 []).length < 3 ∧ noRecentFailure 300 none)
    ∧ (5 ∉ pruneRequests 400 [5])
    ∧ ((can_make_ai_request 400 (add_request 350 (add_request 340 (add_request 330 []))) none).1 = false)
    ∧ ((can_make_ai_request 400 [] (mark_ai_error 200 none)).1 = false) :=
  ⟨(can_make_ai_request_iff_amended 300 [] none).1 (by decide),
   (can_make_ai_request_iff_amended 400 [5] none).2.1 5 (by decide) (by decide),
   (can_make_ai_request_iff_amended 400 [] none).2.2.1 330 340 350 (by decide) (by decide) (by decide),
   (can_make_ai_request_iff_amended 400 [] none).2.2.2 200 (by decide)⟩

/-- C6 counterexample: at clock value 0 with an empty log and no recorded
failure, the code still returns false (the absent-failure default 0 is
"recent"), although fewer than 3 requests remain and no failure was ever
recorded — so the claimed equivalence is false as stated. -/
theorem can_make_ai_request_counterexample :
    ¬ (((can_make_ai_request 0 [] none).1 = true) ↔
        ((pruneRequests 0 []).length < 3 ∧ noRecentFailure 0 none)) := by
  decide

/-! ## C1: the bounded response cache -/

/-- C1 (amended): the voice handler's insertion path keeps the cache within
the 50-entry bound, evicting exactly the single first-inserted entry on
overflow; inserting 51 distinct fingerprints through that path leaves
exactly 50 entries with the first-inserted fingerprint absent.  (The text
handler's insertion path performs no eviction — see the counterexample —
so the bound holds only for the voice path.) -/
theorem cache_eviction_voice_path :
    (∀ (cache : List (Str × AnalysisResult)) (k : Str) (v : AnalysisResult),
        cache.length ≤ 50 → (cache_evict_put cache k v).length ≤ 50)
    ∧ c1VoiceCache.length = 50
    ∧ lookupK c1VoiceCache [Char.ofNat 1072] = none := by
  refine ⟨?_, by decide, by decide⟩
  intro cache k v h
  have hlen := pyDictInsert_length_le cache k v
  unfold cache_evict_put
  by_cases h50 : 50 < (pyDictInsert cache k v).length
  · simp only [h50, if_true, List.length_drop]
    omega
  · simp only [h50, if_false]
    omega

/-- Witness for C1's amended bound at a concrete cache. -/
theorem cache_eviction_voice_path_witness :
    ([("к".data, defaultResult)] : List (Str × AnalysisResult)).length ≤ 50
    ∧ (cache_evict_put [("к".data, defaultResult)] "м".data defaultResult).length ≤ 50 :=
  ⟨by decide,
   cache_eviction_voice_path.1 [("к".data, defaultResult)] "м".data defaultResult (by decide)⟩

/-- C1 counterexample: 51 messages with distinct fingerprints, each passing
the rate-limit gate, processed by the text-message handler leave 51 cache
entries — the text handler's insertion path evicts nothing, so the cache
exceeds the claimed 50-entry bound. -/
theorem cache_unbounded_text_path : 50 < c1TextRun.text_cache.length := by
  decide

/-! ## C8: retry / acceptance behaviour of `ai_generate` -/

theorem aiGenGo_ok_acceptable (responses : Nat → Option Str) :
    ∀ (f i : Nat) (r : Str), aiGenGo responses i f = Except.ok r →
      acceptableResponse r = true := by
  intro f
  induction f with
  | zero => intro i r h; simp [aiGenGo] at h
  | succ f ih =>
    intro i r h
    unfold aiGenGo at h
    split at h
    · exact ih _ _ h
    · rename_i r' hr
      split at h
      · split at h
        · rename_i h1 h2
          cases h
          unfold acceptableResponse
          simp only [Bool.and_eq_true] at h1 ⊢
          exact ⟨h1, h2⟩
        · exact ih _ _ h
      · exact ih _ _ h

theorem aiGenGo_all_rejected (responses : Nat → Option Str) :
    ∀ (f i : Nat),
      (∀ j, i ≤ j → j < i + f → ∀ r, responses j = some r →
        acceptableResponse r = false) →
      aiGenGo responses i f = Except.error msgNoResponse := by
  intro f
  induction f with
  | zero => intro i _; rfl
  | succ f ih =>
    intro i hrej
    have hnext : aiGenGo responses (i + 1) f = Except.error msgNoResponse :=
      ih (i + 1) (fun j h1 h2 r' h => hrej j (by omega) (by omega) r' h)
    unfold aiGenGo
    split
    · exact hnext
    · rename_i r hr
      have hacc : acceptableResponse r = false := hrej i (le_refl i) (by omega) r hr
      unfold acceptableResponse at hacc
      split
      · rename_i h1
        split
        · rename_i hru
          rw [h1, hru] at hacc
          simp at hacc
        · exact hnext
      · exact hnext

/-- C8 (amended): `ai_generate` returns a model response only when the
stripped response is longer than 10 characters and the response contains at
least one letter of the class `[а-яА-Я]` (which excludes the Cyrillic
letters `ё`/`Ё` — hence "Cyrillic" in the claim must be narrowed to that
class, see the counterexample); any response that is empty, too short, or
without such a letter is rejected and the next attempt is tried; and when
all 3 attempts fail to produce an accepted response, `ai_generate` raises
the distinguished "no response" failure instead of returning. -/
theorem ai_generate_acceptance_amended :
    ∀ responses : Nat → Option Str,
      (∀ r, ai_generate responses 3 = Except.ok r →
        r ≠ [] ∧ 10 < (pyStrip r).length ∧ r.any isRuLetter = true)
      ∧ ((∀ j, j < 3 → ∀ r, responses j = some r → acceptableResponse r = false) →
        ai_generate responses 3 = Except.error msgNoResponse) := by
  intro responses
  constructor
  · intro r h
    have := aiGenGo_ok_acceptable responses 3 0 r h
    unfold acceptableResponse at this
    simp only [Bool.and_eq_true, decide_eq_true_eq, List.isEmpty_iff,
      Bool.not_eq_true'] at this
    refine ⟨?_, ?_, ?_⟩
    · intro he
      rcases this with ⟨⟨h1, _⟩, _⟩
      rw [he] at h1
      simp [List.isEmpty] at h1
    · exact this.1.2
    · exact this.2
  · intro hrej
    exact aiGenGo_all_rejected responses 3 0
      (fun j h1 h2 r h => hrej j (by omega) r h)

/-- Witness for C8: a long Russian response is accepted and returned on the
first attempt; a client that always raises exhausts the budget and yields
the distinguished failure. -/
theorem ai_generate_acceptance_amended_witness :
    ("Привет, как дела".data ≠ [] ∧
      10 < (pyStrip "Привет, как дела".data).length ∧
      "Привет, как дела".data.any isRuLetter = true)
    ∧ ai_generate (fun _ => none) 3 = Except.error msgNoResponse :=
  ⟨(ai_generate_acceptance_amended (fun _ => some "Привет, как дела".data)).1
      "Привет, как дела".data rfl,
   (ai_generate_acceptance_amended (fun _ => none)).2
      (fun _ _ r h => Option.noConfusion h)⟩

/-- C8 counterexample: a 12-character response made of the Cyrillic letter
`ё` is non-empty, longer than 10 characters after stripping, and consists
of Cyrillic-block characters, yet every attempt rejects it (the code's
class `[а-яА-Я]` misses `ё`), so `ai_generate` raises the "no response"
failure although the claim says such a response is returned. -/
theorem ai_generate_cyrillic_counterexample :
    ai_generate (fun _ => some yoStr) 3 = Except.error msgNoResponse
    ∧ yoStr ≠ [] ∧ 10 < (pyStrip yoStr).length ∧ yoStr.all isCyr = true := by
  refine ⟨rfl, by decide, by decide, by decide⟩

/-! ## C10: the case-1 line scan overwrites with the last matching line -/

theorem getLast?_cons_elim {α β : Type} (a : α) (t : List α) (d : β) (f : α → β) :
    ((a :: t).getLast?).elim d f = (t.getLast?).elim (f a) f := by
  cases t with
  | nil => simp
  | cons b t' =>
    rw [List.getLast?_cons_cons]
    cases h : (b :: t').getLast? with
    | none => exact absurd (List.getLast?_eq_none_iff.mp h) (List.cons_ne_nil b t')
    | some x => simp

theorem scanFold_fst : ∀ (lines : List Str) (p : Str × Str),
    (lines.foldl scanStep p).1 =
      (((lines.map pyStrip).filter (fun l => ideaLabel.isPrefixOf l)).getLast?).elim p.1
        (fun l => pyStrip (removeAll l ideaLabel)) := by
  intro lines
  induction lines with
  | nil => intro p; simp
  | cons a ls ih =>
    intro p
    rw [List.foldl_cons, ih]
    simp only [List.map_cons, List.filter_cons]
    cases hpA : ideaLabel.isPrefixOf (pyStrip a) with
    | true =>
      have hstep : (scanStep p a).1 = pyStrip (removeAll (pyStrip a) ideaLabel) := by
        simp only [scanStep, hpA, if_true]
      simp only [hpA, if_true, getLast?_cons_elim, hstep]
    | false =>
      have hstep : (scanStep p a).1 = p.1 := by
        simp only [scanStep, hpA]
        cases hpB : ansLabel.isPrefixOf (pyStrip a) <;> simp [hpB]
      simp only [hpA, Bool.false_eq_true, if_false, hstep]

theorem scanFold_snd : ∀ (lines : List Str) (p : Str × Str),
    (lines.foldl scanStep p).2 =
      (((lines.map pyStrip).filter
          (fun l => !ideaLabel.isPrefixOf l && ansLabel.isPrefixOf l)).getLast?).elim p.2
        (fun l => pyStrip (removeAll l ansLabel)) := by
  intro lines
  induction lines with
  | nil => intro p; simp
  | cons a ls ih =>
    intro p
    rw [List.foldl_cons, ih]
    simp only [List.map_cons, List.filter_cons]
    cases hpA : ideaLabel.isPrefixOf (pyStrip a) with
    | true =>
      have hstep : (scanStep p a).2 = p.2 := by
        simp only [scanStep, hpA, if_true]
      simp only [hpA, Bool.not_true, Bool.false_and, Bool.false_eq_true, if_false, hstep]
    | false =>
      cases hpB : ansLabel.isPrefixOf (pyStrip a) with
      | true =>
        have hstep : (scanStep p a).2 = pyStrip (removeAll (pyStrip a) ansLabel) := by
          simp only [scanStep, hpA, hpB]
          simp
        simp only [hpA, hpB, Bool.not_false, Bool.true_and, if_true, getLast?_cons_elim, hstep]
      | false =>
        have hstep : (scanStep p a).2 = p.2 := by
          simp only [scanStep, hpA, hpB]
          simp
        simp only [hpA, hpB, Bool.not_false, Bool.true_and, Bool.false_eq_true, if_false, hstep]

/-- C10 (confirmed): in the case-1 line scan, each output field equals the
extraction from the last line carrying its label (later matches overwrite
earlier ones); a line matching the idea label is never counted as an
answer-label line because of the `elif`. -/
theorem line_scan_last_label_wins :
    ∀ lines : List Str,
      (lineScan lines).1 =
        (((lines.map pyStrip).filter (fun l => ideaLabel.isPrefixOf l)).getLast?).elim []
          (fun l => pyStrip (removeAll l ideaLabel))
      ∧ (lineScan lines).2 =
        (((lines.map pyStrip).filter
            (fun l => !ideaLabel.isPrefixOf l && ansLabel.isPrefixOf l)).getLast?).elim []
          (fun l => pyStrip (removeAll l ansLabel)) := by
  intro lines
  exact ⟨scanFold_fst lines ([], []), scanFold_snd lines ([], [])⟩

/-! ## C4: the parser is total and always well-formed -/

theorem finalizeField_wellformed (d e0 : Str) (hd : d ≠ []) (hlen : d.length ≤ 500) :
    finalizeField d e0 ≠ [] ∧ (finalizeField d e0).length ≤ 500 := by
  unfold finalizeField
  by_cases he : e0 = []
  · rw [if_pos he, if_neg (by omega)]
    exact ⟨hd, hlen⟩
  · rw [if_neg he]
    by_cases h5 : 500 < e0.length
    · rw [if_pos h5]
      have hl : (e0.take 497 ++ "...".data).length = 500 := by
        rw [List.length_append, List.length_take]
        have hm : min 497 e0.length = 497 := by omega
        rw [hm]
        rfl
      constructor
      · intro h
        rw [h] at hl
        simp at hl
      · omega
    · rw [if_neg h5]
      exact ⟨he, by omega⟩

theorem postProcess_wellformed (d x : Str) (hd : d ≠ []) (hlen : d.length ≤ 500) :
    postProcess d x ≠ [] ∧ (postProcess d x).length ≤ 500 := by
  unfold postProcess
  exact finalizeField_wellformed d _ hd hlen

theorem parse_some_shape (s : Str) (hs : s ≠ []) :
    parse_analysis_response (some s) =
      ⟨postProcess mainDefault
          (case3 (pyStrip s) (case2 (pyStrip s) (lineScan (splitOnChar '\n' (pyStrip s))))).1,
        postProcess ansDefault
          (case3 (pyStrip s) (case2 (pyStrip s) (lineScan (splitOnChar '\n' (pyStrip s))))).2⟩ := by
  unfold parse_analysis_response
  dsimp only
  rw [if_neg hs]

/-- C4 (confirmed): `parse_analysis_response` is a total function (the
embedding needs no error case); for every input — any string or `None` —
both returned fields are non-empty and at most 500 characters (truncation
inserts the ellipsis marker), and for `None` or the empty string the fixed
default pair is returned. -/
theorem parse_analysis_response_total_wellformed :
    (∀ resp, (parse_analysis_response resp).main_idea ≠ []
      ∧ (parse_analysis_response resp).main_idea.length ≤ 500
      ∧ (parse_analysis_response resp).answer ≠ []
      ∧ (parse_analysis_response resp).answer.length ≤ 500)
    ∧ parse_analysis_response none = defaultResult
    ∧ parse_analysis_response (some []) = defaultResult := by
  refine ⟨?_, rfl, rfl⟩
  intro resp
  cases resp with
  | none => exact ⟨by decide, by decide, by decide, by decide⟩
  | some s =>
    by_cases hs : s = []
    · subst hs
      exact ⟨by decide, by decide, by decide, by decide⟩
    · rw [parse_some_shape s hs]
      dsimp only
      obtain ⟨h1, h2⟩ := postProcess_wellformed mainDefault
        (case3 (pyStrip s) (case2 (pyStrip s) (lineScan (splitOnChar '\n' (pyStrip s))))).1
        (by decide) (by decide)
      obtain ⟨h3, h4⟩ := postProcess_wellformed ansDefault
        (case3 (pyStrip s) (case2 (pyStrip s) (lineScan (splitOnChar '\n' (pyStrip s))))).2
        (by decide) (by decide)
      exact ⟨h1, h2, h3, h4⟩

/-! ## C7: audio segmentation -/

theorem chunksGo_nil {α : Type} (cl f : Nat) : chunksGo (α := α) cl f [] = [] := by
  cases f <;> simp [chunksGo]

theorem chunksGo_filter_count {α : Type} (cl : Nat) (hcl : 1000 < cl) :
    ∀ (f : Nat) (l : List α), l.length ≤ f →
      ((chunksGo cl f l).filter (fun c => 1000 < c.length)).length =
        l.length / cl + (if 1000 < l.length % cl then 1 else 0) := by
  intro f
  induction f with
  | zero =>
    intro l hl
    have : l = [] := List.eq_nil_of_length_eq_zero (by omega)
    subst this
    simp [chunksGo]
  | succ f ih =>
    intro l hl
    by_cases hnil : l = []
    · subst hnil
      simp [chunksGo]
    · have hpos : 0 < l.length := List.length_pos.mpr hnil
      have hcl0 : 0 < cl := by omega
      unfold chunksGo
      rw [if_neg (by simpa [List.isEmpty_iff] using hnil)]
      by_cases hle : l.length ≤ cl
      · have hdrop : l.drop cl = [] := by
          apply List.eq_nil_of_length_eq_zero
          rw [List.length_drop]
          omega
        have htake : l.take cl = l := List.take_of_length_le hle
        rw [hdrop, chunksGo_nil, htake]
        by_cases heq : l.length = cl
        · rw [List.filter_cons]
          have hkeep : (1000 < l.length : Bool) = true := by
            simp only [decide_eq_true_eq]; omega
          rw [if_pos (by simp [hkeep])]
          rw [heq, Nat.div_self hcl0, Nat.mod_self]
          simp
        · have hlt : l.length < cl := by omega
          rw [List.filter_cons, Nat.div_eq_of_lt hlt, Nat.mod_eq_of_lt hlt]
          by_cases hk : 1000 < l.length
          · rw [if_pos (by simp only [decide_eq_true_eq]; omega), if_pos hk]
            simp
          · rw [if_neg (by simp only [decide_eq_true_eq]; omega), if_neg hk]
            simp
      · have hgt : cl < l.length := by omega
        have hrest : (l.drop cl).length ≤ f := by
          rw [List.length_drop]; omega
        have htakelen : (l.take cl).length = cl := by
          rw [List.length_take]; omega
        rw [List.filter_cons, if_pos (by simp only [decide_eq_true_eq]; omega)]
        rw [List.length_cons, ih (l.drop cl) hrest, List.length_drop]
        have hdiv : l.length / cl = (l.length - cl) / cl + 1 :=
          Nat.div_eq_sub_div hcl0 (by omega)
        have hmod : l.length % cl = (l.length - cl) % cl :=
          Nat.mod_eq_sub_mod (by omega)
        rw [hdiv, hmod]
        omega

/-- C7 (amended): a buffer of duration at most 45000 ms is returned as the
single chunk equal to the input; when silence segmentation yields zero
chunks or an unreasonable count (more than 20 or fewer than 2), the
fixed-window fallback produces `ceil(duration / chunkLength)` slices minus
one when the trailing slice is 1000 ms *or shorter* (the code keeps a slice
only if it is strictly longer than 1000 ms, so an exactly-1000 ms trailing
slice is also dropped, unlike the claim's "shorter than 1000 ms"; see the
counterexample). -/
theorem split_audio_fallback_amended :
    ∀ (audio : List Unit) (silenceChunks : List (List Unit)),
      (audio.length ≤ 45000 → split_audio_on_silence audio silenceChunks 30000 = [audio])
      ∧ (45000 < audio.length →
          (silenceChunks.length = 0 ∨ 20 < silenceChunks.length ∨ silenceChunks.length < 2) →
          (split_audio_on_silence audio silenceChunks 30000).length =
            (audio.length + 30000 - 1) / 30000 -
              (if 0 < audio.length % 30000 ∧ audio.length % 30000 ≤ 1000 then 1 else 0)) := by
  intro audio silenceChunks
  constructor
  · intro h
    unfold split_audio_on_silence
    rw [if_pos h]
  · intro h45 hbad
    unfold split_audio_on_silence
    rw [if_neg (by omega)]
    have hcond : (silenceChunks.isEmpty || 20 < silenceChunks.length ||
        silenceChunks.length < 2 : Bool) = true := by
      rcases hbad with h | h | h
      · have : silenceChunks = [] := List.eq_nil_of_length_eq_zero h
        simp [this]
      · simp only [Bool.or_eq_true, decide_eq_true_eq]
        omega
      · simp only [Bool.or_eq_true, decide_eq_true_eq]
        omega
    rw [if_pos hcond]
    unfold fixedSlices
    rw [chunksGo_filter_count 30000 (by omega) audio.length audio (le_refl _)]
    by_cases hm : 1000 < audio.length % 30000
    · rw [if_pos hm, if_neg (by omega)]
      omega
    · rw [if_neg hm]
      by_cases hz : 0 < audio.length % 30000
      · rw [if_pos ⟨hz, by omega⟩]
        omega
      · rw [if_neg (by omega)]
        omega

/-- Witness for C7 at concrete buffers: a 100 ms buffer is returned whole;
a 61000 ms buffer with no silence chunks goes through the fallback and the
amended count formula. -/
theorem split_audio_fallback_amended_witness :
    ((List.replicate 100 Unit.unit).length ≤ 45000 ∧
      split_audio_on_silence (List.replicate 100 Unit.unit) [] 30000 =
        [List.replicate 100 Unit.unit])
    ∧ (45000 < (List.replicate 61000 Unit.unit).length ∧
        (split_audio_on_silence (List.replicate 61000 Unit.unit)
            ([] : List (List Unit)) 30000).length =
          ((List.replicate 61000 Unit.unit).length + 30000 - 1) / 30000 -
            (if 0 < (List.replicate 61000 Unit.unit).length % 30000 ∧
                (List.replicate 61000 Unit.unit).length % 30000 ≤ 1000
              then 1 else 0)) :=
  ⟨⟨by rw [List.length_replicate]; norm_num,
    (split_audio_fallback_amended (List.replicate 100 Unit.unit) []).1
      (by rw [List.length_replicate]; norm_num)⟩,
   ⟨by rw [List.length_replicate]; norm_num,
    (split_audio_fallback_amended (List.replicate 61000 Unit.unit) []).2
      (by rw [List.length_replicate]; norm_num) (Or.inl rfl)⟩⟩

/-- C7 counterexample: a 61000 ms buffer sliced by 30000 ms windows has a
trailing slice of exactly 1000 ms, which the code drops (2 chunks), while
the claim's formula (minus one only when the trailing slice is strictly
shorter than 1000 ms) predicts 3 chunks. -/
theorem split_audio_trailing_counterexample :
    (split_audio_on_silence (List.replicate 61000 Unit.unit)
        ([] : List (List Unit)) 30000).length ≠
      ((61000 + 30000 - 1) / 30000 - (if 61000 % 30000 < 1000 then 1 else 0)) := by
  have h2 : (split_audio_on_silence (List.replicate 61000 Unit.unit)
      ([] : List (List Unit)) 30000).length = 2 := by
    unfold split_audio_on_silence
    rw [if_neg (by rw [List.length_replicate]; norm_num), if_pos (by simp)]
    unfold fixedSlices
    rw [chunksGo_filter_count 30000 (by omega) _ _ (le_refl _)]
    rw [List.length_replicate]
    norm_num
  rw [h2]
  norm_num

/-! ## C9: `add_request` runs after the gate and before the cache lookup -/

theorem can_make_ai_request_snd (now : Nat) (reqs : List Nat) (lastErr : Option Nat) :
    (can_make_ai_request now reqs lastErr).2 = pruneRequests now reqs := by
  unfold can_make_ai_request
  dsimp only
  split_ifs <;> rfl

/-- C9 (confirmed): in both handlers, once the rate-limit gate passes, the
current timestamp is appended to the user's (pruned) request log, in every
continuation — in particular also when the reply is served from the cache,
in which case no completion-client call is made (call count 0).  For the
voice handler this holds for every pre-analysis outcome, including the
early failure exits. -/
theorem handlers_add_request_before_cache :
    ∀ (md5hex : Str → Str) (now uid : Nat) (text : Str) (aiR : Option Str)
      (backup : Str) (st : BotState),
      startsSlash text = false →
      (can_make_ai_request now (st.user_requests uid) (st.last_ai_error uid)).1 = true →
      ((handle_text_message md5hex now uid text aiR backup st).1.user_requests uid =
          pruneRequests now (st.user_requests uid) ++ [now]
        ∧ (lookupK st.text_cache (md5hex text) ≠ none →
            (handle_text_message md5hex now uid text aiR backup st).2 = 0))
      ∧ (∀ (recognized aiR' : Option Str) (backup' : Str),
          (handle_voice_message md5hex now uid recognized aiR' backup' st).1.user_requests uid =
            pruneRequests now (st.user_requests uid) ++ [now]
          ∧ (∀ t, recognized = some t → lookupK st.text_cache (md5hex t) ≠ none →
              (handle_voice_message md5hex now uid recognized aiR' backup' st).2 = 0)) := by
  intro md5hex now uid text aiR backup st hcmd hgate
  have hsnd := can_make_ai_request_snd now (st.user_requests uid) (st.last_ai_error uid)
  constructor
  · unfold handle_text_message
    rw [hcmd]
    simp only [Bool.false_eq_true, if_false]
    rw [hgate]
    simp only [Bool.true_eq_false, if_false]  
    constructor
    · split
      · simp [updFn, add_request, hsnd]
      · split
        · simp [updFn, add_request, hsnd]
        · simp [updFn, add_request, hsnd]
    · intro hcache
      split
      · rfl
      · rename_i hnone
        exact absurd hnone hcache
  · intro recognized aiR' backup'
    unfold handle_voice_message
    dsimp only
    rw [hgate]
    simp only [Bool.true_eq_false, if_false]
    constructor
    · split
      · simp [updFn, add_request, hsnd]
      · split
        · simp [updFn, add_request, hsnd]
        · split
          · simp [updFn, add_request, hsnd]
          · simp [updFn, add_request, hsnd]
    · intro t hrec hcache
      subst hrec
      dsimp only
      split
      · rfl
      · rename_i hnone
        exact absurd hnone hcache

/-- Witness for C9: a concrete passing state in which the text is already
cached, so the handler answers from the cache, makes no completion call,
and still logs the request. -/
theorem handlers_add_request_before_cache_witness :
    (startsSlash "привет".data = false
      ∧ (can_make_ai_request 300
          (BotState.user_requests ⟨fun _ => [], fun _ => none,
            [("привет".data, defaultResult)]⟩ 7)
          (BotState.last_ai_error ⟨fun _ => [], fun _ => none,
            [("привет".data, defaultResult)]⟩ 7)).1 = true)
    ∧ ((handle_text_message id 300 7 "привет".data none []
          ⟨fun _ => [], fun _ => none, [("привет".data, defaultResult)]⟩).1.user_requests 7 =
        pruneRequests 300 [] ++ [300]
      ∧ (handle_text_message id 300 7 "привет".data none []
          ⟨fun _ => [], fun _ => none, [("привет".data, defaultResult)]⟩).2 = 0) := by
  have h := handlers_add_request_before_cache id 300 7 "привет".data none []
    ⟨fun _ => [], fun _ => none, [("привет".data, defaultResult)]⟩ (by decide) (by decide)
  exact ⟨⟨by decide, by decide⟩, h.1.1, h.1.2 (by decide)⟩

/-! ## C2 and C3: the text segmenter -/

theorem dropWhile_head_false {p : Char → Bool} :
    ∀ (s : Str) (c : Char) (t : Str), s.dropWhile p = c :: t → p c = false := by
  intro s
  induction s with
  | nil => intro c t h; simp [List.dropWhile] at h
  | cons a s' ih =>
    intro c t h
    rw [List.dropWhile_cons] at h
    by_cases hpa : p a = true
    · rw [if_pos hpa] at h
      exact ih c t h
    · rw [if_neg hpa] at h
      cases h
      exact Bool.eq_false_iff.mpr hpa

theorem splitSentGo_join :
    ∀ (f : Nat) (s : Str), s.length ≤ f → (splitSentGo f s).flatten = s := by
  intro f
  induction f with
  | zero =>
    intro s hs
    have : s = [] := List.eq_nil_of_length_eq_zero (by omega)
    subst this
    simp [splitSentGo]
  | succ f ih =>
    intro s hs
    unfold splitSentGo
    dsimp only
    cases hrest : s.dropWhile (fun c => !isSentC c) with
    | nil =>
      have := List.takeWhile_append_dropWhile (p := fun c => !isSentC c) (l := s)
      rw [hrest, List.append_nil] at this
      simp [this]
    | cons c rest' =>
      have hc : isSentC c = true := by
        have := dropWhile_head_false s c rest' hrest
        simpa using this
      have hpre := List.takeWhile_append_dropWhile (p := fun c => !isSentC c) (l := s)
      rw [hrest] at hpre
      have hdl := List.takeWhile_append_dropWhile (p := isSentC) (l := c :: rest')
      have hws := List.takeWhile_append_dropWhile (p := isPySpace)
        (l := (c :: rest').dropWhile isSentC)
      have hdlne : (c :: rest').takeWhile isSentC ≠ [] := by
        rw [List.takeWhile_cons, if_pos hc]
        simp
      have hlen1 : ((c :: rest').dropWhile isSentC).length < (c :: rest').length := by
        have h1 := congrArg List.length hdl
        rw [List.length_append] at h1
        have h2 : 0 < ((c :: rest').takeWhile isSentC).length :=
          List.length_pos.mpr hdlne
        omega
      have hlen2 : (((c :: rest').dropWhile isSentC).dropWhile isPySpace).length ≤
          ((c :: rest').dropWhile isSentC).length :=
        (List.dropWhile_sublist _).length_le
      have hlen3 : (c :: rest').length ≤ s.length := by
        have := congrArg List.length hpre
        rw [List.length_append] at this
        omega
      have ihlen : (((c :: rest').dropWhile isSentC).dropWhile isPySpace).length ≤ f := by
        omega
      rw [List.flatten_cons, List.flatten_cons, ih _ ihlen]
      rw [List.append_assoc]
      rw [hws, hdl]
      exact hpre

theorem pairUp_join : ∀ l : List Str, (pairUp l).flatten = l.flatten := by
  intro l
  induction l using pairUp.induct with
  | case1 => rfl
  | case2 a => rfl
  | case3 a b r ih =>
    simp only [pairUp, List.flatten_cons, ih, List.append_assoc]

theorem reSplitSent_join (s : Str) : (reSplitSent s).flatten = s :=
  splitSentGo_join s.length s (le_refl _)

theorem contentOf_append (a b : Str) : contentOf (a ++ b) = contentOf a ++ contentOf b := by
  unfold contentOf
  rw [List.filter_append]

theorem contentOf_lstrip (z : Str) : contentOf (lstrip z) = contentOf z := by
  unfold lstrip
  induction z with
  | nil => rfl
  | cons a z' ih =>
    rw [List.dropWhile_cons]
    by_cases ha : isPySpace a = true
    · rw [if_pos ha, ih]
      unfold contentOf
      rw [List.filter_cons, ha]
      simp
    · rw [if_neg ha]

theorem contentOf_reverse (z : Str) : contentOf z.reverse = (contentOf z).reverse := by
  unfold contentOf
  rw [List.filter_reverse]

theorem contentOf_rstrip (z : Str) : contentOf (rstrip z) = contentOf z := by
  unfold rstrip
  rw [contentOf_reverse]
  have h := contentOf_lstrip z.reverse
  unfold lstrip at h
  rw [h, contentOf_reverse, List.reverse_reverse]

theorem contentOf_pyStrip (z : Str) : contentOf (pyStrip z) = contentOf z := by
  unfold pyStrip
  rw [contentOf_rstrip, contentOf_lstrip]

theorem flushCur_flatten_content (r : List Str × Str) :
    contentOf (flushCur r).flatten = contentOf r.1.flatten ++ contentOf r.2 := by
  unfold flushCur
  by_cases h : r.2 = []
  · rw [if_pos h, h]
    simp [contentOf]
  · rw [if_neg h]
    rw [List.flatten_append]
    simp only [List.flatten_cons, List.flatten_nil, List.append_nil]
    rw [contentOf_append, contentOf_pyStrip]

theorem sentFold_content (maxL : Nat) :
    ∀ (units : List Str) (ch : List Str) (cur : Str),
      (∀ s ∈ units, s.length ≤ maxL) →
      contentOf (flushCur (units.foldl (sentStep maxL) (ch, cur))).flatten =
        contentOf ch.flatten ++ contentOf cur ++ contentOf units.flatten := by
  intro units
  induction units with
  | nil =>
    intro ch cur _
    rw [List.foldl_nil, flushCur_flatten_content]
    simp [contentOf]
  | cons s units' ih =>
    intro ch cur H
    have hs : s.length ≤ maxL := H s (List.mem_cons_self s units')
    have H' : ∀ u ∈ units', u.length ≤ maxL :=
      fun u hu => H u (List.mem_cons_of_mem s hu)
    rw [List.foldl_cons]
    have hstep : sentStep maxL (ch, cur) s =
        if cur.length + s.length ≤ maxL then (ch, cur ++ s)
        else ((if cur = [] then ch else ch ++ [pyStrip cur]), s) := by
      unfold sentStep
      rw [if_neg (by omega)]
    rw [hstep]
    by_cases hacc : cur.length + s.length ≤ maxL
    · rw [if_pos hacc, ih _ _ H']
      rw [List.flatten_cons, contentOf_append, contentOf_append]
      simp [List.append_assoc]
    · rw [if_neg hacc]
      by_cases hcur : cur = []
      · rw [if_pos hcur, ih _ _ H', hcur]
        rw [List.flatten_cons, contentOf_append]
        simp [contentOf, List.append_assoc]
      · rw [if_neg hcur, ih _ _ H']
        rw [List.flatten_append, List.flatten_cons]
        simp only [List.flatten_cons, List.flatten_nil, List.append_nil]
        rw [contentOf_append, contentOf_pyStrip, contentOf_append]
        simp [List.append_assoc]

/-- C3 (amended): whenever no recombined sentence unit exceeds the maximum
(so the word-level fallback is never taken), the chunks returned by
`split_long_text` concatenate, up to whitespace, to the input text in the
original order.  (When a unit does exceed the maximum, the word-fallback
chunks are emitted before the still-pending current chunk, which breaks
the order — see the counterexample.) -/
theorem split_long_text_content_amended :
    ∀ (text : Str) (maxL : Nat),
      (∀ s ∈ pairUp (reSplitSent text), s.length ≤ maxL) →
      contentOf (split_long_text text maxL).flatten = contentOf text := by
  intro text maxL H
  unfold split_long_text
  by_cases hfit : text.length ≤ maxL
  · rw [if_pos hfit]
    simp
  · rw [if_neg hfit]
    rw [sentFold_content maxL _ [] [] H]
    rw [pairUp_join, reSplitSent_join]
    simp [contentOf]

/-- Witness for C3 at a concrete input whose units all fit. -/
theorem split_long_text_content_amended_witness :
    (∀ s ∈ pairUp (reSplitSent "Привет. Как дела?".data), s.length ≤ 12)
    ∧ contentOf (split_long_text "Привет. Как дела?".data 12).flatten =
        contentOf "Привет. Как дела?".data :=
  ⟨by decide, split_long_text_content_amended "Привет. Как дела?".data 12 (by decide)⟩

/-- C3 counterexample: with maximum 5, the input `"Аб. Вввввв"` has an
oversized second unit; its word-fallback chunk is appended before the
pending first chunk, so the concatenation (even ignoring whitespace) does
not reproduce the input: the code returns `["Вввввв", "Аб."]`. -/
theorem split_long_text_order_counterexample :
    contentOf (split_long_text "Аб. Вввввв".data 5).flatten ≠
      contentOf "Аб. Вввввв".data := by
  decide

theorem lstrip_length_le (z : Str) : (lstrip z).length ≤ z.length :=
  (List.dropWhile_sublist _).length_le

theorem rstrip_length_le (z : Str) : (rstrip z).length ≤ z.length := by
  unfold rstrip
  rw [List.length_reverse]
  calc (z.reverse.dropWhile isPySpace).length ≤ z.reverse.length :=
        (List.dropWhile_sublist _).length_le
    _ = z.length := List.length_reverse z

theorem pyStrip_length_le (z : Str) : (pyStrip z).length ≤ z.length := by
  unfold pyStrip
  calc (rstrip (lstrip z)).length ≤ (lstrip z).length := rstrip_length_le _
    _ ≤ z.length := lstrip_length_le _

theorem wordFold_bound (maxL : Nat) :
    ∀ (ws : List Str) (ch : List Str) (tmp : Str),
      (∀ w ∈ ws, w.length ≤ maxL) →
      (∀ c ∈ ch, c.length ≤ maxL) → tmp.length ≤ maxL →
      (∀ c ∈ (ws.foldl (wordStep maxL) (ch, tmp)).1, c.length ≤ maxL)
      ∧ (ws.foldl (wordStep maxL) (ch, tmp)).2.length ≤ maxL := by
  intro ws
  induction ws with
  | nil => intro ch tmp _ hch htmp; exact ⟨hch, htmp⟩
  | cons w ws' ih =>
    intro ch tmp hw hch htmp
    have hwhd : w.length ≤ maxL := hw w (List.mem_cons_self w ws')
    have hw' : ∀ u ∈ ws', u.length ≤ maxL :=
      fun u hu => hw u (List.mem_cons_of_mem w hu)
    rw [List.foldl_cons]
    unfold wordStep
    dsimp only
    by_cases hg : tmp.length + w.length + 1 ≤ maxL
    · rw [if_pos hg]
      apply ih _ _ hw' hch
      by_cases he : tmp = []
      · rw [if_pos he]; exact hwhd
      · rw [if_neg he]
        rw [List.length_append, List.length_cons]
        omega
    · rw [if_neg hg]
      apply ih _ _ hw' _ hwhd
      by_cases he : tmp = []
      · rw [if_pos he]; exact hch
      · rw [if_neg he]
        intro c hc
        rcases List.mem_append.mp hc with h | h
        · exact hch c h
        · rw [List.mem_singleton.mp h]
          exact htmp

theorem sentFold_bound (maxL : Nat) :
    ∀ (units : List Str) (ch : List Str) (cur : Str),
      (∀ s ∈ units, maxL < s.length → ∀ w ∈ pysplitWs s, w.length ≤ maxL) →
      (∀ c ∈ ch, c.length ≤ maxL) → cur.length ≤ maxL →
      (∀ c ∈ (units.foldl (sentStep maxL) (ch, cur)).1, c.length ≤ maxL)
      ∧ (units.foldl (sentStep maxL) (ch, cur)).2.length ≤ maxL := by
  intro units
  induction units with
  | nil => intro ch cur _ hch hcur; exact ⟨hch, hcur⟩
  | cons s units' ih =>
    intro ch cur H hch hcur
    have H' : ∀ u ∈ units', maxL < u.length → ∀ w ∈ pysplitWs u, w.length ≤ maxL :=
      fun u hu => H u (List.mem_cons_of_mem s hu)
    rw [List.foldl_cons]
    unfold sentStep
    dsimp only
    by_cases hbig : maxL < s.length
    · rw [if_pos hbig]
      have hw := H s (List.mem_cons_self s units') hbig
      obtain ⟨h1, h2⟩ := wordFold_bound maxL (pysplitWs s) ch [] hw hch (by simp)
      apply ih _ _ H' _ hcur
      by_cases he : ((pysplitWs s).foldl (wordStep maxL) (ch, [])).2 = []
      · rw [if_pos he]; exact h1
      · rw [if_neg he]
        intro c hc
        rcases List.mem_append.mp hc with h | h
        · exact h1 c h
        · rw [List.mem_singleton.mp h]
          exact h2
    · rw [if_neg hbig]
      by_cases hacc : cur.length + s.length ≤ maxL
      · rw [if_pos hacc]
        apply ih _ _ H' hch
        rw [List.length_append]
        omega
      · rw [if_neg hacc]
        apply ih _ _ H' _ (by omega)
        by_cases he : cur = []
        · rw [if_pos he]; exact hch
        · rw [if_neg he]
          intro c hc
          rcases List.mem_append.mp hc with h | h
          · exact hch c h
          · rw [List.mem_singleton.mp h]
            calc (pyStrip cur).length ≤ cur.length := pyStrip_length_le _
              _ ≤ maxL := hcur

/-- C2 (amended): every chunk returned by `split_long_text(T, M)` has
length at most `M`, provided every whitespace-delimited word of every
oversized sentence unit has length at most `M`.  The code contains no
raw-character hard truncation: a single word longer than `M` inside an
oversized unit is emitted whole as an oversized chunk (see the
counterexample), contrary to the claim's "hard-truncated by raw character
slicing". -/
theorem split_long_text_bound_amended :
    ∀ (text : Str) (maxL : Nat),
      (∀ s ∈ pairUp (reSplitSent text), maxL < s.length →
        ∀ w ∈ pysplitWs s, w.length ≤ maxL) →
      ∀ c ∈ split_long_text text maxL, c.length ≤ maxL := by
  intro text maxL H c hc
  unfold split_long_text at hc
  by_cases hfit : text.length ≤ maxL
  · rw [if_pos hfit] at hc
    rw [List.mem_singleton.mp hc]
    exact hfit
  · rw [if_neg hfit] at hc
    obtain ⟨h1, h2⟩ := sentFold_bound maxL (pairUp (reSplitSent text)) [] [] H
      (by simp) (by simp)
    unfold flushCur at hc
    by_cases he : ((pairUp (reSplitSent text)).foldl (sentStep maxL) ([], [])).2 = []
    · rw [if_pos he] at hc
      exact h1 c hc
    · rw [if_neg he] at hc
      rcases List.mem_append.mp hc with h | h
      · exact h1 c h
      · rw [List.mem_singleton.mp h]
        calc (pyStrip _).length ≤ _ := pyStrip_length_le _
          _ ≤ maxL := h2

/-- Witness for C2 at a concrete input with an oversized unit whose words
all fit. -/
theorem split_long_text_bound_amended_witness :
    (∀ s ∈ pairUp (reSplitSent "Привет. Как дела сегодня?".data), 10 < s.length →
      ∀ w ∈ pysplitWs s, w.length ≤ 10)
    ∧ ∀ c ∈ split_long_text "Привет. Как дела сегодня?".data 10, c.length ≤ 10 :=
  ⟨by decide, split_long_text_bound_amended "Привет. Как дела сегодня?".data 10 (by decide)⟩

/-- C2 counterexample: a single 3-character word with maximum 2 is returned
as one oversized chunk — no raw-character truncation takes place, so not
every returned chunk satisfies the bound. -/
theorem split_long_text_bound_counterexample :
    ¬ (∀ c ∈ split_long_text "ааа".data 2, c.length ≤ 2) := by
  decide

/-! ## C5: exact parse of a well-formed two-line labeled response -/

theorem isPySpace_cases (c : Char) (h : isPySpace c = true) :
    c = ' ' ∨ c = '\t' ∨ c = '\n' ∨ c = '\r' ∨ c = '\x0b' ∨ c = '\x0c' := by
  unfold isPySpace at h
  simp only [Bool.or_eq_true, decide_eq_true_eq] at h
  tauto

theorem claimAllowedNC_not_colon {c : Char} (h : claimAllowedNC c = true) : c ≠ ':' := by
  intro hc
  subst hc
  simp [claimAllowedNC] at h

theorem claimAllowedNC_space {c : Char} (h : claimAllowedNC c = true) :
    isPySpace c = true → c = ' ' := by
  intro hsp
  rcases isPySpace_cases c hsp with h' | h' | h' | h' | h' | h' <;> subst h'
  · rfl
  all_goals simp [claimAllowedNC, claimAllowed, isCyr, isKeptPunct, Char.isDigit] at h

theorem claimAllowedNC_not_nl {c : Char} (h : claimAllowedNC c = true) : c ≠ '\n' := by
  intro hc
  subst hc
  simp [claimAllowedNC, claimAllowed, isCyr, isKeptPunct, Char.isDigit] at h

theorem claimAllowedNC_codeAllowed {c : Char} (h : claimAllowedNC c = true) :
    codeAllowed c = true := by
  unfold claimAllowedNC claimAllowed at h
  unfold codeAllowed
  simp only [Bool.and_eq_true, Bool.or_eq_true] at h
  rcases h.1 with ((h' | h') | h') | h'
  · simp [h']
  · simp [h']
  · simp only [decide_eq_true_eq] at h'
    subst h'
    decide
  · simp [h']

theorem lstrip_cons_nonspace {c : Char} (t : Str) (h : isPySpace c = false) :
    lstrip (c :: t) = c :: t := by
  unfold lstrip
  rw [List.dropWhile_cons, h]
  simp

theorem lstrip_cons_space (t : Str) : lstrip (' ' :: t) = lstrip t := by
  unfold lstrip
  rw [List.dropWhile_cons]
  simp [isPySpace]

theorem rstrip_append_last (p y : Str) (h : headNonspace y.reverse = true) :
    rstrip (p ++ y) = p ++ y := by
  unfold rstrip
  rw [List.reverse_append]
  cases hy : y.reverse with
  | nil => rw [hy] at h; simp [headNonspace] at h
  | cons c t =>
    rw [hy] at h
    unfold headNonspace at h
    simp only [Bool.not_eq_true'] at h
    rw [List.cons_append, List.dropWhile_cons, h]
    simp only [Bool.false_eq_true, if_false]
    rw [← List.cons_append, ← hy, List.reverse_append, List.reverse_reverse,
      List.reverse_reverse]

theorem pyStrip_id (x : Str) (h1 : headNonspace x = true) (h2 : headNonspace x.reverse = true) :
    pyStrip x = x := by
  unfold pyStrip
  cases hx : x with
  | nil => simp [lstrip, rstrip]
  | cons c t =>
    rw [hx] at h1
    unfold headNonspace at h1
    simp only [Bool.not_eq_true'] at h1
    rw [lstrip_cons_nonspace t h1]
    have := rstrip_append_last [] (c :: t) (by rw [← hx]; exact h2)
    simpa using this

theorem pyStrip_space_cons (x : Str) : pyStrip (' ' :: x) = pyStrip x := by
  unfold pyStrip
  rw [lstrip_cons_space]

theorem isPrefixOf_append_self : ∀ (t r : Str), t.isPrefixOf (t ++ r) = true := by
  intro t
  induction t with
  | nil => intro r; simp [List.isPrefixOf]
  | cons a t' ih =>
    intro r
    rw [List.cons_append]
    show (a == a && t'.isPrefixOf (t' ++ r)) = true
    rw [ih r]
    simp

theorem mem_of_isPrefixOf : ∀ (t s : Str), t.isPrefixOf s = true → ∀ c ∈ t, c ∈ s := by
  intro t
  induction t with
  | nil => intro s _ c hc; simp at hc
  | cons a t' ih =>
    intro s h c hc
    cases s with
    | nil => simp [List.isPrefixOf] at h
    | cons b s' =>
      have h' : (a == b && t'.isPrefixOf s') = true := h
      rw [Bool.and_eq_true] at h'
      have hab : a = b := by simpa using h'.1
      rcases List.mem_cons.mp hc with h1 | h1
      · subst h1
        rw [hab]
        exact List.mem_cons_self b s'
      · exact List.mem_cons_of_mem b (ih s' h'.2 c h1)

theorem remAllGo_no_colon (t : Str) (ht : ':' ∈ t) :
    ∀ (f : Nat) (s : Str), (∀ c ∈ s, c ≠ ':') → remAllGo t f s = s := by
  intro f
  induction f with
  | zero => intro s _; rfl
  | succ f ih =>
    intro s hs
    cases s with
    | nil => rfl
    | cons c cs =>
      unfold remAllGo
      have hpf : t.isPrefixOf (c :: cs) = false := by
        cases hp : t.isPrefixOf (c :: cs) with
        | false => rfl
        | true =>
          have := mem_of_isPrefixOf t (c :: cs) hp ':' ht
          exact absurd this (by simpa using fun h => hs ':' h rfl)
      rw [hpf]
      simp only [Bool.false_eq_true, if_false]
      rw [ih cs (fun x hx => hs x (List.mem_cons_of_mem c hx))]

theorem removeAll_no_colon (s t : Str) (ht : ':' ∈ t) (hs : ∀ c ∈ s, c ≠ ':') :
    removeAll s t = s := by
  unfold removeAll
  by_cases h0 : t = []
  · rw [if_pos h0]
  · rw [if_neg h0]
    exact remAllGo_no_colon t ht s.length s hs

theorem removeAll_label_self (t r : Str) (h0 : t ≠ []) (ht : ':' ∈ t)
    (hr : ∀ c ∈ r, c ≠ ':') : removeAll (t ++ r) t = r := by
  unfold removeAll
  rw [if_neg h0]
  cases t with
  | nil => exact absurd rfl h0
  | cons t0 t' =>
    have hlen : ((t0 :: t') ++ r).length = (t'.length + r.length) + 1 := by
      rw [List.length_append]
      simp only [List.length_cons]
      omega
    rw [hlen]
    rw [List.cons_append]
    unfold remAllGo
    rw [← List.cons_append, isPrefixOf_append_self]
    simp only [if_true]
    have hdrop : List.drop ((t0 :: t').length - 1) (t' ++ r) = r := by
      simp only [List.length_cons]
      have : t'.length + 1 - 1 = t'.length := by omega
      rw [this]
      exact List.drop_left t' r
    rw [hdrop]
    exact remAllGo_no_colon (t0 :: t') ht (t'.length + r.length) r hr

theorem splitOnChar_not_mem (sep : Char) :
    ∀ (a : Str), sep ∉ a → splitOnChar sep a = [a] := by
  intro a
  induction a with
  | nil => intro _; rfl
  | cons c cs ih =>
    intro h
    have hc : c ≠ sep := fun hc => h (hc ▸ List.mem_cons_self c cs)
    have hcs : sep ∉ cs := fun hm => h (List.mem_cons_of_mem c hm)
    unfold splitOnChar
    rw [ih hcs]
    simp [hc]

theorem splitOnChar_two (sep : Char) :
    ∀ (a b : Str), sep ∉ a → sep ∉ b →
      splitOnChar sep (a ++ sep :: b) = [a, b] := by
  intro a
  induction a with
  | nil =>
    intro b _ hb
    rw [List.nil_append]
    unfold splitOnChar
    rw [splitOnChar_not_mem sep b hb]
    simp
  | cons c cs ih =>
    intro b ha hb
    have hc : c ≠ sep := fun hc => ha (hc ▸ List.mem_cons_self c cs)
    have hcs : sep ∉ cs := fun hm => ha (List.mem_cons_of_mem c hm)
    rw [List.cons_append]
    unfold splitOnChar
    rw [ih b hcs hb]
    simp [hc]

theorem mapWs_id (x : Str) (h : ∀ c ∈ x, isPySpace c = true → c = ' ') :
    mapWs x = x := by
  unfold mapWs
  induction x with
  | nil => rfl
  | cons c cs ih =>
    rw [List.map_cons]
    have hc : (if isPySpace c then ' ' else c) = c := by
      by_cases hsp : isPySpace c = true
      · rw [if_pos hsp, h c (List.mem_cons_self c cs) hsp]
      · rw [if_neg hsp]
    rw [hc, ih (fun u hu => h u (List.mem_cons_of_mem c hu))]

theorem squeeze_id : ∀ (x : Str), noDoubleSpace x = true → squeeze x = x := by
  intro x
  induction x using squeeze.induct with
  | case1 => intro _; rfl
  | case2 a => intro _; rfl
  | case3 a b t hab ih =>
    intro h
    unfold noDoubleSpace at h
    rw [Bool.and_eq_true] at h
    exfalso
    rw [Bool.and_eq_true] at hab
    have ha : isPySpace a = true := by
      have := hab.1
      simp only [decide_eq_true_eq] at this
      rw [this]
      decide
    have hb : isPySpace b = true := by
      have := hab.2
      simp only [decide_eq_true_eq] at this
      rw [this]
      decide
    simp [ha, hb] at h
  | case4 a b t hab ih =>
    intro h
    unfold noDoubleSpace at h
    rw [Bool.and_eq_true] at h
    unfold squeeze
    rw [if_neg hab]
    rw [ih h.2]

theorem collapseWs_id (x : Str) (hns : noDoubleSpace x = true)
    (hsp : ∀ c ∈ x, isPySpace c = true → c = ' ') : collapseWs x = x := by
  unfold collapseWs
  rw [mapWs_id x hsp, squeeze_id x hns]

theorem normField_spec (x : Str) (h : normField x = true) :
    (∀ c ∈ x, claimAllowedNC c = true) ∧ headNonspace x = true ∧
      headNonspace x.reverse = true ∧ noDoubleSpace x = true ∧
      x.length ≤ 500 ∧ x ≠ [] := by
  unfold normField at h
  simp only [Bool.and_eq_true, List.all_eq_true, decide_eq_true_eq] at h
  have hne : x ≠ [] := by
    intro hx
    subst hx
    simp [headNonspace] at h
  exact ⟨h.1.1.1.1, h.1.1.1.2, h.1.1.2, h.1.2, h.2, hne⟩

theorem postProcess_id (d x : Str) (h : normField x = true) : postProcess d x = x := by
  obtain ⟨hall, hh, hr, hnds, hlen, hne⟩ := normField_spec x h
  have hfilter : x.filter codeAllowed = x :=
    List.filter_eq_self.mpr (fun c hc => claimAllowedNC_codeAllowed (hall c hc))
  have hcol : collapseWs x = x :=
    collapseWs_id x hnds (fun c hc => claimAllowedNC_space (hall c hc))
  have hstrip : pyStrip x = x := pyStrip_id x hh hr
  have hnc : ∀ c ∈ x, c ≠ ':' := fun c hc => claimAllowedNC_not_colon (hall c hc)
  have hrem1 : removeAll x ideaLabel = x := removeAll_no_colon x ideaLabel (by decide) hnc
  have hrem2 : removeAll x ansLabel = x := removeAll_no_colon x ansLabel (by decide) hnc
  unfold postProcess
  dsimp only
  rw [hfilter, hcol, hstrip, hrem1, hstrip, hrem2, hstrip]
  unfold finalizeField
  dsimp only
  rw [if_neg hne, if_neg (by omega)]

theorem pyStrip_idea_line (x : Str) (hr : headNonspace x.reverse = true) :
    pyStrip (ideaLabel ++ ' ' :: x) = ideaLabel ++ ' ' :: x := by
  unfold pyStrip
  have hcons : ideaLabel ++ ' ' :: x = 'О' :: ("СНОВНАЯ МЫСЛЬ:".data ++ ' ' :: x) := rfl
  rw [hcons, lstrip_cons_nonspace _ (by decide), ← hcons]
  have hsplit : ideaLabel ++ ' ' :: x = (ideaLabel ++ [' ']) ++ x := by
    rw [List.append_assoc]
    rfl
  rw [hsplit, rstrip_append_last _ x hr, ← hsplit]

theorem pyStrip_ans_line (y : Str) (hr : headNonspace y.reverse = true) :
    pyStrip (ansLabel ++ ' ' :: y) = ansLabel ++ ' ' :: y := by
  unfold pyStrip
  have hcons : ansLabel ++ ' ' :: y = 'О' :: ("ТВЕТ:".data ++ ' ' :: y) := rfl
  rw [hcons, lstrip_cons_nonspace _ (by decide), ← hcons]
  have hsplit : ansLabel ++ ' ' :: y = (ansLabel ++ [' ']) ++ y := by
    rw [List.append_assoc]
    rfl
  rw [hsplit, rstrip_append_last _ y hr, ← hsplit]

theorem idea_not_prefix_of_ans_line (r : Str) :
    ideaLabel.isPrefixOf (ansLabel ++ r) = false := rfl

theorem scanStep_idea_line (p : Str × Str) (x : Str)
    (hh : headNonspace x = true) (hr : headNonspace x.reverse = true)
    (hnc : ∀ c ∈ x, c ≠ ':') :
    scanStep p (ideaLabel ++ ' ' :: x) = (x, p.2) := by
  unfold scanStep
  rw [pyStrip_idea_line x hr]
  dsimp only
  rw [isPrefixOf_append_self]
  simp only [if_true]
  have hrem : removeAll (ideaLabel ++ ' ' :: x) ideaLabel = ' ' :: x := by
    apply removeAll_label_self
    · decide
    · decide
    · intro c hc
      rcases List.mem_cons.mp hc with h | h
      · subst h; decide
      · exact hnc c h
  rw [hrem, pyStrip_space_cons, pyStrip_id x hh hr]

theorem scanStep_ans_line (p : Str × Str) (y : Str)
    (hh : headNonspace y = true) (hr : headNonspace y.reverse = true)
    (hnc : ∀ c ∈ y, c ≠ ':') :
    scanStep p (ansLabel ++ ' ' :: y) = (p.1, y) := by
  unfold scanStep
  rw [pyStrip_ans_line y hr]
  dsimp only
  rw [idea_not_prefix_of_ans_line]
  simp only [Bool.false_eq_true, if_false]
  rw [isPrefixOf_append_self]
  simp only [if_true]
  have hrem : removeAll (ansLabel ++ ' ' :: y) ansLabel = ' ' :: y := by
    apply removeAll_label_self
    · decide
    · decide
    · intro c hc
      rcases List.mem_cons.mp hc with h | h
      · subst h; decide
      · exact hnc c h
  rw [hrem, pyStrip_space_cons, pyStrip_id y hh hr]

/-- C5 (amended): for non-empty strings `X`, `Y` over the allowed alphabet
*minus the colon* (Cyrillic letters, digits, spaces, `. , ! ? - ( )`), in
whitespace-normal form (no leading or trailing space, no two adjacent
spaces) and of length at most 500, parsing the two-line input
`"ОСНОВНАЯ МЫСЛЬ: X\nОТВЕТ: Y"` returns exactly `{main_idea := X,
answer := Y}`.  A colon must be excluded because residual-label stripping
can rewrite a field containing `"ОТВЕТ:"` (see the counterexample);
whitespace that is not in normal form is collapsed and trimmed, and fields
beyond 500 characters are truncated. -/
theorem parse_labeled_exact_amended :
    ∀ (x y : Str), normField x = true → normField y = true →
      parse_analysis_response (some (labeledInput x y)) = ⟨x, y⟩ := by
  intro x y hx hy
  obtain ⟨hxall, hxh, hxr, _, _, hxne⟩ := normField_spec x hx
  obtain ⟨hyall, hyh, hyr, _, _, hyne⟩ := normField_spec y hy
  have hxnc : ∀ c ∈ x, c ≠ ':' := fun c hc => claimAllowedNC_not_colon (hxall c hc)
  have hync : ∀ c ∈ y, c ≠ ':' := fun c hc => claimAllowedNC_not_colon (hyall c hc)
  have hne : labeledInput x y ≠ [] := by
    unfold labeledInput
    intro h
    have h1 := (List.append_eq_nil.mp h).1
    have h2 := (List.append_eq_nil.mp h1).1
    exact absurd h2 (by decide)
  have hstripI : pyStrip (labeledInput x y) = labeledInput x y := by
    unfold labeledInput pyStrip
    have hcons : ideaLabel ++ ' ' :: x ++ '\n' :: (ansLabel ++ ' ' :: y) =
        'О' :: ("СНОВНАЯ МЫСЛЬ:".data ++ ' ' :: x ++ '\n' :: (ansLabel ++ ' ' :: y)) := rfl
    rw [hcons, lstrip_cons_nonspace _ (by decide), ← hcons]
    have hsplit : ideaLabel ++ ' ' :: x ++ '\n' :: (ansLabel ++ ' ' :: y) =
        (ideaLabel ++ ' ' :: x ++ '\n' :: (ansLabel ++ [' '])) ++ y := by
      simp [List.append_assoc]
    rw [hsplit, rstrip_append_last _ y hyr, ← hsplit]
  have hform : labeledInput x y =
      (ideaLabel ++ ' ' :: x) ++ '\n' :: (ansLabel ++ ' ' :: y) := by
    unfold labeledInput
    simp [List.append_assoc]
  have hlines : splitOnChar '\n' (labeledInput x y) =
      [ideaLabel ++ ' ' :: x, ansLabel ++ ' ' :: y] := by
    rw [hform]
    apply splitOnChar_two
    · intro hmem
      rcases List.mem_append.mp hmem with h | h
      · exact absurd h (by decide)
      · rcases List.mem_cons.mp h with h | h
        · exact absurd h (by decide)
        · exact claimAllowedNC_not_nl (hxall _ h) rfl
    · intro hmem
      rcases List.mem_append.mp hmem with h | h
      · exact absurd h (by decide)
      · rcases List.mem_cons.mp h with h | h
        · exact absurd h (by decide)
        · exact claimAllowedNC_not_nl (hyall _ h) rfl
  have hscan : lineScan [ideaLabel ++ ' ' :: x, ansLabel ++ ' ' :: y] = (x, y) := by
    unfold lineScan
    rw [List.foldl_cons, scanStep_idea_line ([], []) x hxh hxr hxnc,
      List.foldl_cons, scanStep_ans_line (x, []) y hyh hyr hync, List.foldl_nil]
  have hc2 : case2 (labeledInput x y) (x, y) = (x, y) := by
    unfold case2
    dsimp only
    rw [decide_eq_false hyne]
    simp
  have hc3 : case3 (labeledInput x y) (x, y) = (x, y) := by
    unfold case3
    dsimp only
    rw [decide_eq_false hxne]
    simp
  unfold parse_analysis_response
  dsimp only
  rw [if_neg hne]
  rw [hstripI, hlines, hscan, hc2, hc3]
  dsimp only
  rw [postProcess_id mainDefault x hx, postProcess_id ansDefault y hy]

/-- Witness for C5 at concrete normal-form fields. -/
theorem parse_labeled_exact_amended_witness :
    (normField "привет".data = true ∧ normField "хорошо".data = true)
    ∧ parse_analysis_response (some (labeledInput "привет".data "хорошо".data)) =
        ⟨"привет".data, "хорошо".data⟩ :=
  ⟨⟨by decide, by decide⟩,
   parse_labeled_exact_amended "привет".data "хорошо".data (by decide) (by decide)⟩

/-- C5 counterexample: `X = "ОТВЕТ: да"` consists only of allowed
characters (Cyrillic letters, a colon and a space), yet the returned
`main_idea` is `"да"`, not `X`: the residual-label stripping step removes
the embedded `"ОТВЕТ:"`, so the claim fails as stated for colon-bearing
fields. -/
theorem parse_labeled_counterexample :
    ("ОТВЕТ: да".data.all claimAllowed = true
      ∧ "хорошо".data.all claimAllowed = true)
    ∧ (parse_analysis_response
        (some (labeledInput "ОТВЕТ: да".data "хорошо".data))).main_idea ≠
        "ОТВЕТ: да".data := by
  refine ⟨⟨by decide, by decide⟩, by decide⟩
